import Mathlib

/- Verification of the static-aws-deploy core against its specification:
   change detection (upload/upload.go hasFileChanged), remote inventory
   parsing (getDeltaMap), path filtering and header assignment (ParseFiles,
   getUploadPath), the bounded-concurrency transfer scheduler (Do), the
   Cloudfront invalidation entry point (invalidate.Do) and configuration
   normalization (main.go readConfig). -/

/-- Header models Go `type Header map[string]string`; every property below
treats one header as an opaque unit, so the map is kept as its pair list. -/
abbrev Header := List (String × String)

/-- DeltaProperties (upload.go 30-33): LastModified (a point in time, modelled
as nanoseconds since the epoch) and ETag. -/
structure DeltaProperties where
  lastModified : Int
  eTag : String
deriving DecidableEq

/-- Delta (upload.go 27): Go `map[string]*DeltaProperties`, modelled as an
association list with overwrite-on-insert. -/
abbrev Delta := List (String × DeltaProperties)

def deltaLookup (m : Delta) (k : String) : Option DeltaProperties :=
  (m.find? (fun p => p.1 == k)).map (fun p => p.2)

def deltaInsert (m : Delta) (k : String) (v : DeltaProperties) : Delta :=
  (m.filter (fun p => !(p.1 == k))) ++ [(k, v)]

/-- hasFileChanged (upload.go 110-120). calculateETag reads the file and
hex-encodes its md5 digest (external I/O and crypto); its result is the `etag`
argument here, and `info.ModTime()` is `modTime`. Go `t.After(u)` is strict
`t > u`. -/
def hasFileChanged (modTime : Int) (etag : String) (deltaMap : Delta)
    (uploadPath : String) : Bool :=
  match deltaLookup deltaMap uploadPath with
  | some deltaProps =>
      (etag != deltaProps.eTag) && (decide (deltaProps.lastModified < modTime))
  | none => true

/-- XmlElement: the fragment of the etree API the code consumes — a tag, the
character data, and the child elements. -/
structure XmlElement where
  tag : String
  text : String
  children : List XmlElement

/-- etree `SelectElement`: the first child element with the given tag. -/
def selectElement (children : List XmlElement) (tag : String) : Option XmlElement :=
  children.find? (fun c => c.tag == tag)

/-- etree `SelectElements`: every child element with the given tag; the Go
version returns a nil slice when nothing matches, so emptiness of this list is
exactly the `contents == nil` condition in the source. -/
def selectElements (children : List XmlElement) (tag : String) : List XmlElement :=
  children.filter (fun c => c.tag == tag)

/-- strings.Trim(s, "\"") as used on the remote ETag. -/
def trimQuote (s : String) : String :=
  String.mk (((s.toList.dropWhile (fun c => c == '"')).reverse.dropWhile
    (fun c => c == '"')).reverse)

/-- The per-entry body of the getDeltaMap loop (upload.go 160-176): the three
sub-elements are required, the timestamp must parse, and the ETag is unquoted
before storage. `parseTime` models `time.Parse(time.RFC3339Nano, ...)`. -/
def processContent (parseTime : String → Option Int) (deltaMap : Delta)
    (file : XmlElement) : Except String Delta :=
  match selectElement file.children "LastModified",
        selectElement file.children "ETag",
        selectElement file.children "Key" with
  | some lastModified, some etag, some key =>
      match parseTime lastModified.text with
      | some t => Except.ok (deltaInsert deltaMap key.text ⟨t, trimQuote etag.text⟩)
      | none => Except.error ("could not parse date in response from aws: " ++ lastModified.text)
  | _, _, _ =>
      Except.error "could not parse response from aws, xml is malformed: Contents is missing ETag, Key or LastModified"

/-- getDeltaMap (upload.go 132-177). The HTTP GET, the request signing and the
XML tokenization are external; `doc` holds the top-level elements of the parsed
response document. -/
def getDeltaMap (parseTime : String → Option Int) (doc : List XmlElement) :
    Except String Delta :=
  match selectElement doc "ListBucketResult" with
  | none => Except.error "could not parse response from aws, xml is malformed: missing ListBucketResult"
  | some root =>
    let contents := selectElements root.children "Contents"
    if contents.isEmpty then
      Except.error "could not parse response from aws, xml is malformed: missing Contents"
    else
      contents.foldlM (processContent parseTime) ([] : Delta)

/-- A Contents entry that the loop accepts: all three sub-elements present and
a parsable timestamp. -/
def contentWellFormed (parseTime : String → Option Int) (file : XmlElement) : Bool :=
  match selectElement file.children "LastModified",
        selectElement file.children "ETag",
        selectElement file.children "Key" with
  | some lastModified, some _, some _ => (parseTime lastModified.text).isSome
  | _, _, _ => false

/-- The key under which an entry would be stored. -/
def contentKey (file : XmlElement) : Option String :=
  (selectElement file.children "Key").map (fun k => k.text)

structure MetadataRule where
  regex : String
  headers : List Header
deriving DecidableEq

structure Bucket where
  name : String
  accesskey : String
  key : String
deriving DecidableEq

/-- Config (upload.go 36-49); Parallel is a Go int. -/
structure Config where
  bucket : Bucket
  parallel : Int
  source : String
  ignore : String
  metadata : List MetadataRule
deriving DecidableEq

/-- strings.TrimPrefix: drop the prefix when present, otherwise unchanged
(computed over the character lists; equivalent to the byte-based Go original
on the ASCII paths involved). -/
def trimPre (s pre : String) : String :=
  if pre.toList.isPrefixOf s.toList then String.mk (s.toList.drop pre.toList.length) else s

/-- getUploadPath (upload.go 232-234); `clean` models filepath.Clean (path
algebra from the Go standard library). -/
def getUploadPath (clean : String → String) (config : Config) (filePath : String) : String :=
  trimPre filePath (clean config.source ++ "/")

/-- One filesystem object visited by filepath.Walk: its path, whether it is a
directory, its modification time, and the md5 hex digest of its content (the
value calculateETag would compute). -/
structure WalkEntry where
  path : String
  isDir : Bool
  modTime : Int
  etag : String
deriving DecidableEq

/-- Files (upload.go 24): map from filename to its header list, kept here in
walk order (the Go map iteration order is unspecified and no property below
depends on it). -/
abbrev Files := List (String × List Header)

/-- The metadata pass of ParseFiles (upload.go 92-104) for one file: each
rule's regex is recompiled and matched against the file's walk path, appending
the rule's headers on a match. `compileRegex` models regexp.Compile: none is a
compile error, otherwise the match predicate of the compiled pattern. -/
def assignHeaders (compileRegex : String → Option (String → Bool))
    (metadata : List MetadataRule) (file : String) : Except String (List Header) :=
  metadata.foldlM
    (fun acc rule =>
      match compileRegex rule.regex with
      | none => Except.error ("could not parse regex: " ++ rule.regex)
      | some re => Except.ok (if re file then acc ++ rule.headers else acc))
    []

/-- The filepath.Walk callback accumulation (upload.go 74-88): directories and
ignore-matching paths are skipped; in delta mode hasFileChanged (with the
upload path as the inventory key) filters further. The traversal itself is
external; `entries` lists the visited objects in walk order. -/
def walkSelect (clean : String → String) (ignoreRe : String → Bool) (config : Config)
    (delta : Bool) (deltaMap : Delta) (entries : List WalkEntry) : List String :=
  entries.foldl
    (fun acc ent =>
      if !ent.isDir && !(ignoreRe ent.path) then
        let hasChanged :=
          if delta then
            hasFileChanged ent.modTime ent.etag deltaMap (getUploadPath clean config ent.path)
          else true
        if hasChanged then acc ++ [ent.path] else acc
      else acc)
    []

/-- ParseFiles (upload.go 54-106). External effects appear as parameters:
`statOk` is the os.Stat success of the source directory, `compileRegex` models
regexp.Compile, `clean` models filepath.Clean, `entries` is the walk, and
`listingDoc`/`parseTime` feed getDeltaMap when delta mode is on. -/
def ParseFiles (compileRegex : String → Option (String → Bool)) (clean : String → String)
    (statOk : Bool) (parseTime : String → Option Int) (listingDoc : List XmlElement)
    (config : Config) (delta : Bool) (entries : List WalkEntry) : Except String Files :=
  if config.source = "" then Except.error "no source specified"
  else if !statOk then Except.error ("could not read source directory " ++ config.source)
  else
    match compileRegex config.ignore with
    | none => Except.error ("could not parse regex: " ++ config.ignore)
    | some ignoreRe =>
      match (if delta then getDeltaMap parseTime listingDoc else Except.ok []) with
      | Except.error e => Except.error e
      | Except.ok deltaMap =>
        (walkSelect clean ignoreRe config delta deltaMap entries).foldlM
          (fun acc file =>
            match assignHeaders compileRegex config.metadata file with
            | Except.error e => Except.error e
            | Except.ok hs => Except.ok (acc ++ [(file, hs)]))
          ([] : Files)

/-- Whether a rule matches a file under the compile oracle (false as well when
the pattern does not compile; assignHeaders errors out in that case anyway). -/
def ruleMatches (compileRegex : String → Option (String → Bool))
    (rule : MetadataRule) (file : String) : Bool :=
  match compileRegex rule.regex with
  | some re => re file
  | none => false

/-- The header list the metadata pass produces for one file: the concatenated
header lists of the matching rules, in configuration order. -/
def matchedHeaders (compileRegex : String → Option (String → Bool))
    (metadata : List MetadataRule) (file : String) : List Header :=
  ((metadata.filter (fun r => ruleMatches compileRegex r file)).map
    (fun r => r.headers)).flatten

/-- Modelled from the spec: section 4.1 directs that each metadata rule's regex
be evaluated against the computed uploadKey, not the raw filesystem path; this
is the header assignment the spec describes, to compare with assignHeaders. -/
def assignHeadersSpecKey (compileRegex : String → Option (String → Bool))
    (clean : String → String) (config : Config) (file : String) :
    Except String (List Header) :=
  assignHeaders compileRegex config.metadata (getUploadPath clean config file)

/-- One line written to the progress logger; the constructors record the
Fprintf calls in Do (upload.go 192, 204, 222): the "%d Files to upload (%d
concurrently)..." banner, the "%s...Done." per-file notice, and the finish
message ("Upload finished." / "Dry Run finished.", prefixed by "Delta " in
delta mode). -/
inductive LogLine
  | banner (nFiles : Nat) (poolSize : Nat)
  | doneLine (file : String)
  | finish (dryRun : Bool) (delta : Bool)
deriving DecidableEq

/-- One work item handed to a goroutine of Do: the map key (file), the map
value (headers), and the outcome uploadFile would produce for it — the network
oracle: none is success, some e the error e. -/
structure TaskItem where
  file : String
  headers : List Header
  outcome : Option String
deriving DecidableEq

/-- Where one goroutine of Do is in its body (upload.go 195-205): parked on
the pool send; inside uploadFile; parked on the error-channel send with its
error; about to print the done line and release the slot; or returned. In dry
run the uploading and sendErr phases are skipped. -/
inductive Phase
  | waitPool
  | uploading
  | sendErr (e : String)
  | writingDone
  | finished
deriving DecidableEq

structure TaskState where
  item : TaskItem
  phase : Phase
deriving DecidableEq

/-- The shared state of one run of Do: the goroutines, the number of occupied
pool slots (the buffered channel `pool` of capacity Parallel), the buffered
error channel of capacity 1, whether wg.Wait has closed `finished`, the logger
output (most recent line first), the value Do returned (none while it is still
in the select; some none is a nil return, some (some e) the error e), and how
many uploadFile calls have been entered. -/
structure SchedState where
  tasks : List TaskState
  poolCount : Nat
  errBuf : Option String
  finishedClosed : Bool
  log : List LogLine
  result : Option (Option String)
  uploadsStarted : Nat
deriving DecidableEq

/-- The run parameters of Do: pool capacity (config.Parallel) and the two mode
flags. -/
structure Ctx where
  poolSize : Nat
  dryRun : Bool
  delta : Bool
deriving DecidableEq

/-- The state of Do right after the banner is printed and the goroutines are
spawned (upload.go 186-211): every task is parked on the pool send. -/
def initState (items : List TaskItem) (ctx : Ctx) : SchedState :=
  { tasks := items.map (fun it => ⟨it, Phase.waitPool⟩)
    poolCount := 0
    errBuf := none
    finishedClosed := false
    log := [LogLine.banner items.length ctx.poolSize]
    result := none
    uploadsStarted := 0 }

/-- The run parameters Do derives from the configuration: poolSize is
config.Parallel. A negative Parallel would make make(chan) panic in Go;
Int.toNat maps it to capacity 0, under which likewise no transfer can ever
start. -/
def mkCtx (config : Config) (dryRun delta : Bool) : Ctx :=
  ⟨config.parallel.toNat, dryRun, delta⟩

/-- Do (upload.go 182-229), entry: an empty bucket name is rejected before the
banner is printed and before any goroutine is spawned — the log and the task
list exist only in the ok branch. -/
def DoStart (config : Config) (items : List TaskItem) (dryRun delta : Bool) :
    Except String SchedState :=
  if config.bucket.name = "" then Except.error "no bucket specified"
  else Except.ok (initState items (mkCtx config dryRun delta))

/-- One interleaving step of a run of Do; each constructor is a suspension
point of the source: a goroutine acquires a pool slot and (outside dry run)
enters uploadFile; uploadFile returns with the item's outcome; a failed
goroutine sends on the error channel (possible only while its single buffer
slot is free); a goroutine prints its done line, releases its slot and ends
(wg.Done); wg.Wait observes every goroutine ended and closes `finished`; the
select takes the finished branch and prints the finish message; or the select
takes the error branch, draining the buffer and returning the error. -/
inductive SchedAct
  | acquire (i : Nat)
  | uploadRet (i : Nat)
  | send (i : Nat)
  | writeDone (i : Nat)
  | closeFinished
  | selectFinished
  | selectErr
deriving DecidableEq

def stepAct (ctx : Ctx) (s : SchedState) : SchedAct → Option SchedState
  | SchedAct.acquire i =>
    match s.tasks.get? i with
    | some t =>
      match t.phase with
      | Phase.waitPool =>
        if s.poolCount < ctx.poolSize then
          if ctx.dryRun then
            some { s with
                   tasks := s.tasks.set i ⟨t.item, Phase.writingDone⟩
                   poolCount := s.poolCount + 1 }
          else
            some { s with
                   tasks := s.tasks.set i ⟨t.item, Phase.uploading⟩
                   poolCount := s.poolCount + 1
                   uploadsStarted := s.uploadsStarted + 1 }
        else none
      | _ => none
    | none => none
  | SchedAct.uploadRet i =>
    match s.tasks.get? i with
    | some t =>
      match t.phase with
      | Phase.uploading =>
        match t.item.outcome with
        | some e => some { s with tasks := s.tasks.set i ⟨t.item, Phase.sendErr e⟩ }
        | none => some { s with tasks := s.tasks.set i ⟨t.item, Phase.writingDone⟩ }
      | _ => none
    | none => none
  | SchedAct.send i =>
    match s.tasks.get? i with
    | some t =>
      match t.phase, s.errBuf with
      | Phase.sendErr e, none =>
        some { s with
               tasks := s.tasks.set i ⟨t.item, Phase.writingDone⟩
               errBuf := some e }
      | _, _ => none
    | none => none
  | SchedAct.writeDone i =>
    match s.tasks.get? i with
    | some t =>
      match t.phase with
      | Phase.writingDone =>
        some { s with
               tasks := s.tasks.set i ⟨t.item, Phase.finished⟩
               poolCount := s.poolCount - 1
               log := LogLine.doneLine t.item.file :: s.log }
      | _ => none
    | none => none
  | SchedAct.closeFinished =>
    if s.finishedClosed then none
    else if s.tasks.all (fun t => decide (t.phase = Phase.finished)) then
      some { s with finishedClosed := true }
    else none
  | SchedAct.selectFinished =>
    match s.result with
    | none =>
      if s.finishedClosed then
        some { s with
               result := some none
               log := LogLine.finish ctx.dryRun ctx.delta :: s.log }
      else none
    | some _ => none
  | SchedAct.selectErr =>
    match s.result, s.errBuf with
    | none, some e => some { s with result := some (some e), errBuf := none }
    | _, _ => none

def execTrace (ctx : Ctx) (s : SchedState) : List SchedAct → Option SchedState
  | [] => some s
  | a :: as =>
    match stepAct ctx s a with
    | some s2 => execTrace ctx s2 as
    | none => none

/-- A state some interleaving of the goroutines of Do can produce from the
initial state. -/
def Reachable (ctx : Ctx) (items : List TaskItem) (s : SchedState) : Prop :=
  ∃ acts, execTrace ctx (initState items ctx) acts = some s

def countTasks (ts : List TaskState) (q : TaskState → Bool) : Nat :=
  (ts.filter q).length

def isUploading : Phase → Bool
  | Phase.uploading => true
  | _ => false

/-- Phases during which the goroutine occupies a pool slot. -/
def holdsSlot : Phase → Bool
  | Phase.uploading => true
  | Phase.sendErr _ => true
  | Phase.writingDone => true
  | _ => false

/-- Phases a failing goroutine can only be in after its error-channel send
completed. -/
def pastSend : Phase → Bool
  | Phase.writingDone => true
  | Phase.finished => true
  | _ => false

/-- Number of goroutines currently inside uploadFile. -/
def uploadingCount (s : SchedState) : Nat :=
  countTasks s.tasks (fun t => isUploading t.phase)

/-- Number of done notices for file f in the log. -/
def doneCount (log : List LogLine) (f : String) : Nat :=
  (log.filter (fun l => decide (l = LogLine.doneLine f))).length

def bufInd (s : SchedState) : Nat := if s.errBuf.isSome then 1 else 0

def recvInd (s : SchedState) : Nat :=
  match s.result with
  | some (some _) => 1
  | _ => 0

/-- Number of failing goroutines whose error-channel send has completed. -/
def sentCount (s : SchedState) : Nat :=
  countTasks s.tasks (fun t => t.item.outcome.isSome && pastSend t.phase)

/-- A log line of invalidate.Do: the "Invalidating %d Cloudfront URLs" banner
or one dry-run path line. -/
inductive InvLogLine
  | banner (n : Nat)
  | path (p : String)
deriving DecidableEq

structure Distribution where
  id : String
  accesskey : String
  key : String
deriving DecidableEq

/-- invalidate.Config (invalidate package). -/
structure InvalidateConfig where
  distribution : Distribution
  invalidation : List String
deriving DecidableEq

/-- What a successful invalidate.Do run produced: its log, and the number of
invalidation requests posted to Cloudfront. -/
structure InvRun where
  log : List InvLogLine
  requests : Nat
deriving DecidableEq

/-- invalidate.Do (invalidate package, Do plus createXML/invalidate): an empty
invalidation list and an empty distribution id are rejected up front; a dry
run prints every path; otherwise createXML builds one InvalidationBatch and
invalidate() posts it with a single client.Do call (response handling and the
network are external). -/
def invalidateDo (config : InvalidateConfig) (dryRun : Bool) :
    Except String InvRun :=
  if config.invalidation.length = 0 then
    Except.error "no invalidation paths specified"
  else if config.distribution.id = "" then
    Except.error "no distribution specified"
  else
    Except.ok
      { log := InvLogLine.banner config.invalidation.length
            :: (if dryRun then config.invalidation.map InvLogLine.path else [])
        requests := if dryRun then 0 else 1 }

structure AuthConfig where
  accesskey : String
  key : String
deriving DecidableEq

/-- main.Config (main.go 15-22). -/
structure MainConfig where
  auth : AuthConfig
  s3 : Config
  cloudfront : InvalidateConfig
deriving DecidableEq

/-- readConfig (main.go 62-88) after the external file read and YAML
unmarshal succeed: Parallel is clamped to 1 when nonpositive, credentials fall
back to the AWS_ACCESS_KEY_ID / AWS_SECRET_ACCESS_KEY environment values, and
missing credentials are fatal; the accepted credentials are copied into both
the bucket and the distribution configuration. -/
def readConfig (parsed : MainConfig) (envAccessKey envSecretKey : String) :
    Except String MainConfig :=
  let s3a := if parsed.s3.parallel ≤ 0 then { parsed.s3 with parallel := 1 } else parsed.s3
  let accesskey := if parsed.auth.accesskey = "" then envAccessKey else parsed.auth.accesskey
  let key := if parsed.auth.key = "" then envSecretKey else parsed.auth.key
  if key = "" ∨ accesskey = "" then Except.error "no aws credentials found"
  else
    Except.ok
      { auth := ⟨accesskey, key⟩
        s3 := { s3a with bucket := { s3a.bucket with accesskey := accesskey, key := key } }
        cloudfront := { parsed.cloudfront with
          distribution := { parsed.cloudfront.distribution with
            accesskey := accesskey, key := key } } }

deriving instance DecidableEq for Except

theorem length_filter_set {α : Type} (l : List α) (i : Nat) (a b : α) (q : α → Bool)
    (h : l.get? i = some a) :
    ((l.set i b).filter q).length + (if q a then 1 else 0)
      = (l.filter q).length + (if q b then 1 else 0) := by
  induction l generalizing i with
  | nil => simp at h
  | cons x xs ih =>
    cases i with
    | zero =>
      simp only [List.get?] at h
      injection h with h
      subst a
      simp only [List.set, List.filter]
      cases hqa : q x <;> cases hqb : q b <;> simp [hqa, hqb]
    | succ n =>
      simp only [List.get?] at h
      have hrec := ih n h
      simp only [List.set, List.filter]
      cases hx : q x <;> cases hqa : q a <;> cases hqb : q b <;>
        simp [hx, hqa, hqb] at hrec ⊢ <;> omega

theorem countTasks_set_same (ts : List TaskState) (i : Nat) (t : TaskState) (p : Phase)
    (q : TaskState → Bool) (h : ts.get? i = some t)
    (hq : q t = q ⟨t.item, p⟩) :
    countTasks (ts.set i ⟨t.item, p⟩) q = countTasks ts q := by
  have hls := length_filter_set ts i t ⟨t.item, p⟩ q h
  unfold countTasks
  rw [hq] at hls
  omega

theorem countTasks_set_incr (ts : List TaskState) (i : Nat) (t : TaskState) (p : Phase)
    (q : TaskState → Bool) (h : ts.get? i = some t)
    (hqt : q t = false) (hqp : q ⟨t.item, p⟩ = true) :
    countTasks (ts.set i ⟨t.item, p⟩) q = countTasks ts q + 1 := by
  have hls := length_filter_set ts i t ⟨t.item, p⟩ q h
  unfold countTasks
  rw [hqt, hqp] at hls
  simp at hls
  omega

theorem countTasks_set_decr (ts : List TaskState) (i : Nat) (t : TaskState) (p : Phase)
    (q : TaskState → Bool) (h : ts.get? i = some t)
    (hqt : q t = true) (hqp : q ⟨t.item, p⟩ = false) :
    countTasks (ts.set i ⟨t.item, p⟩) q + 1 = countTasks ts q := by
  have hls := length_filter_set ts i t ⟨t.item, p⟩ q h
  unfold countTasks
  rw [hqt, hqp] at hls
  simp at hls
  omega

theorem map_item_set (ts : List TaskState) (i : Nat) (t : TaskState) (p : Phase)
    (h : ts.get? i = some t) :
    (ts.set i ⟨t.item, p⟩).map (fun x => x.item) = ts.map (fun x => x.item) := by
  induction ts generalizing i with
  | nil => simp at h
  | cons x xs ih =>
    cases i with
    | zero =>
      simp only [List.get?] at h
      injection h with h
      subst h
      simp [List.set]
    | succ n =>
      simp only [List.get?] at h
      simp [List.set, ih n h]

theorem countTasks_le_of_imp (ts : List TaskState) (p q : TaskState → Bool)
    (h : ∀ t ∈ ts, p t = true → q t = true) :
    countTasks ts p ≤ countTasks ts q := by
  unfold countTasks
  induction ts with
  | nil => simp
  | cons x xs ih =>
    have hx := h x (List.mem_cons_self x xs)
    have hxs := ih (fun t ht => h t (List.mem_cons_of_mem x ht))
    simp only [List.filter]
    cases hp : p x with
    | true => rw [hx hp]; simpa using hxs
    | false =>
      cases hq : q x <;> simp [hq] <;> omega

theorem countTasks_congr (ts : List TaskState) (p q : TaskState → Bool)
    (h : ∀ t ∈ ts, p t = q t) : countTasks ts p = countTasks ts q := by
  unfold countTasks
  induction ts with
  | nil => simp
  | cons x xs ih =>
    have hx := h x (List.mem_cons_self x xs)
    have hxs := ih (fun t ht => h t (List.mem_cons_of_mem x ht))
    simp only [List.filter, hx]
    cases hq : q x <;> simp [hxs]

/-- The inductive invariant of a run of Do, tying the pool counter, the error
channel, the wg/finished signal, the log, and the select result together. -/
structure SchedInv (ctx : Ctx) (items : List TaskItem) (s : SchedState) : Prop where
  items_eq : s.tasks.map (fun t => t.item) = items
  pool_eq : s.poolCount = countTasks s.tasks (fun t => holdsSlot t.phase)
  pool_le : s.poolCount ≤ ctx.poolSize
  sendErr_outcome : ∀ t ∈ s.tasks, ∀ e, t.phase = Phase.sendErr e → t.item.outcome = some e
  errBuf_mem : ∀ e, s.errBuf = some e → some e ∈ items.map (fun it => it.outcome)
  result_mem : ∀ e, s.result = some (some e) → some e ∈ items.map (fun it => it.outcome)
  closed_finished : s.finishedClosed = true → ∀ t ∈ s.tasks, t.phase = Phase.finished
  result_closed : s.result = some none → s.finishedClosed = true
  sent_eq : ctx.dryRun = false → sentCount s = recvInd s + bufInd s
  dry_noUpload : ctx.dryRun = true → s.uploadsStarted = 0
  dry_phase : ctx.dryRun = true →
    ∀ t ∈ s.tasks, isUploading t.phase = false ∧ ∀ e, t.phase ≠ Phase.sendErr e
  dry_errBuf : ctx.dryRun = true → s.errBuf = none
  dry_result : ctx.dryRun = true → ∀ e, s.result ≠ some (some e)
  done_count : ∀ f, doneCount s.log f
    = countTasks s.tasks (fun t => decide (t.phase = Phase.finished) && (t.item.file == f))

theorem inv_init (ctx : Ctx) (items : List TaskItem) :
    SchedInv ctx items (initState items ctx) := by
  have hfilterFalse : ∀ (q : TaskState → Bool),
      (∀ it : TaskItem, q ⟨it, Phase.waitPool⟩ = false) →
      countTasks (items.map (fun it => ⟨it, Phase.waitPool⟩)) q = 0 := by
    intro q hq
    unfold countTasks
    rw [List.filter_eq_nil_iff.mpr]
    · rfl
    · intro t ht
      rcases List.mem_map.mp ht with ⟨it, _, rfl⟩
      simp [hq it]
  refine ⟨?_, ?_, ?_, ?_, ?_, ?_, ?_, ?_, ?_, ?_, ?_, ?_, ?_, ?_⟩
  · have hid : ((fun (t : TaskState) => t.item) ∘ fun it => (⟨it, Phase.waitPool⟩ : TaskState)) = id := rfl
    simp [initState, List.map_map, hid]
  · show 0 = countTasks (items.map (fun it => ⟨it, Phase.waitPool⟩)) (fun t => holdsSlot t.phase)
    rw [hfilterFalse (fun t => holdsSlot t.phase) (fun it => rfl)]
  · simp [initState]
  · intro t ht e hph
    exfalso
    rcases List.mem_map.mp ht with ⟨it, _, rfl⟩
    simp at hph
  · intro e he
    simp [initState] at he
  · intro e he
    simp [initState] at he
  · intro h
    simp [initState] at h
  · intro h
    simp [initState] at h
  · intro _
    show countTasks (items.map (fun it => ⟨it, Phase.waitPool⟩))
        (fun t => t.item.outcome.isSome && pastSend t.phase)
      = recvInd (initState items ctx) + bufInd (initState items ctx)
    rw [hfilterFalse (fun t => t.item.outcome.isSome && pastSend t.phase)
      (fun it => by simp [pastSend])]
    rfl
  · intro _
    rfl
  · intro _ t ht
    rcases List.mem_map.mp ht with ⟨it, _, rfl⟩
    exact ⟨rfl, fun e => by simp⟩
  · intro _
    rfl
  · intro _ e h
    simp [initState] at h
  · intro f
    show doneCount [LogLine.banner items.length ctx.poolSize] f
      = countTasks (items.map (fun it => ⟨it, Phase.waitPool⟩))
          (fun t => decide (t.phase = Phase.finished) && (t.item.file == f))
    rw [hfilterFalse (fun t => decide (t.phase = Phase.finished) && (t.item.file == f))
      (fun it => by simp)]
    simp [doneCount]

theorem doneCount_cons (l : LogLine) (log : List LogLine) (f : String) :
    doneCount (l :: log) f
      = doneCount log f + (if l = LogLine.doneLine f then 1 else 0) := by
  unfold doneCount
  simp only [List.filter]
  rcases hd : decide (l = LogLine.doneLine f) with _ | _
  · simp at hd
    simp [hd]
  · simp at hd
    simp [hd]

theorem mem_outcome_of_task {items : List TaskItem} {s : SchedState} {t : TaskState}
    (hitems : s.tasks.map (fun t => t.item) = items) (htmem : t ∈ s.tasks) :
    t.item.outcome ∈ items.map (fun it => it.outcome) := by
  rw [← hitems, List.map_map]
  exact List.mem_map.mpr ⟨t, htmem, rfl⟩

theorem inv_step {ctx : Ctx} {items : List TaskItem} {s s2 : SchedState} {a : SchedAct}
    (hI : SchedInv ctx items s) (h : stepAct ctx s a = some s2) :
    SchedInv ctx items s2 := by
  cases a with
  | acquire i =>
    simp only [stepAct] at h
    split at h
    case _ t hg =>
      have htmem : t ∈ s.tasks := List.get?_mem hg
      split at h
      case _ hph =>
        split at h
        case _ hpl =>
          split at h
          case _ hdry =>
            injection h with h
            subst h
            refine ⟨?_, ?_, ?_, ?_, ?_, ?_, ?_, ?_, ?_, ?_, ?_, ?_, ?_, ?_⟩
            · rw [map_item_set _ _ _ _ hg]; exact hI.items_eq
            · show s.poolCount + 1 = _
              rw [countTasks_set_incr s.tasks i t Phase.writingDone _ hg
                (by simp [hph, holdsSlot]) (by simp [holdsSlot])]
              rw [hI.pool_eq]
            · show s.poolCount + 1 ≤ ctx.poolSize; omega
            · intro t2 ht2 e hph2
              rcases List.mem_or_eq_of_mem_set ht2 with h2 | h2
              · exact hI.sendErr_outcome t2 h2 e hph2
              · subst h2; simp at hph2
            · exact hI.errBuf_mem
            · exact hI.result_mem
            · intro hfc
              exact absurd (hI.closed_finished hfc t htmem) (by simp [hph])
            · exact hI.result_closed
            · intro hdf; rw [hdry] at hdf; cases hdf
            · exact hI.dry_noUpload
            · intro hd t2 ht2
              rcases List.mem_or_eq_of_mem_set ht2 with h2 | h2
              · exact hI.dry_phase hd t2 h2
              · subst h2; exact ⟨rfl, by simp⟩
            · exact hI.dry_errBuf
            · exact hI.dry_result
            · intro f
              show doneCount s.log f = _
              rw [countTasks_set_same s.tasks i t Phase.writingDone _ hg (by simp [hph])]
              exact hI.done_count f
          case _ hdry =>
            injection h with h
            subst h
            have hdry2 : ctx.dryRun = false := by
              cases hcd : ctx.dryRun
              · rfl
              · exact absurd hcd hdry
            refine ⟨?_, ?_, ?_, ?_, ?_, ?_, ?_, ?_, ?_, ?_, ?_, ?_, ?_, ?_⟩
            · rw [map_item_set _ _ _ _ hg]; exact hI.items_eq
            · show s.poolCount + 1 = _
              rw [countTasks_set_incr s.tasks i t Phase.uploading _ hg
                (by simp [hph, holdsSlot]) (by simp [holdsSlot])]
              rw [hI.pool_eq]
            · show s.poolCount + 1 ≤ ctx.poolSize; omega
            · intro t2 ht2 e hph2
              rcases List.mem_or_eq_of_mem_set ht2 with h2 | h2
              · exact hI.sendErr_outcome t2 h2 e hph2
              · subst h2; simp at hph2
            · exact hI.errBuf_mem
            · exact hI.result_mem
            · intro hfc
              exact absurd (hI.closed_finished hfc t htmem) (by simp [hph])
            · exact hI.result_closed
            · intro hdf
              show countTasks _ _ = recvInd s + bufInd s
              rw [countTasks_set_same s.tasks i t Phase.uploading _ hg
                (by simp [hph, pastSend])]
              exact hI.sent_eq hdf
            · intro hd; rw [hd] at hdry2; cases hdry2
            · intro hd; rw [hd] at hdry2; cases hdry2
            · intro hd; rw [hd] at hdry2; cases hdry2
            · intro hd; rw [hd] at hdry2; cases hdry2
            · intro f
              show doneCount s.log f = _
              rw [countTasks_set_same s.tasks i t Phase.uploading _ hg (by simp [hph])]
              exact hI.done_count f
        case _ => exact absurd h (by simp)
      all_goals exact absurd h (by simp)
    case _ hg => simp at h
  | uploadRet i =>
    simp only [stepAct] at h
    split at h
    case _ t hg =>
      have htmem : t ∈ s.tasks := List.get?_mem hg
      split at h
      case _ hph =>
        have hnotdry : ctx.dryRun = false := by
          cases hcd : ctx.dryRun
          · rfl
          · exact absurd ((hI.dry_phase hcd t htmem).1) (by simp [hph, isUploading])
        split at h
        case _ e houtc =>
          injection h with h
          subst h
          refine ⟨?_, ?_, ?_, ?_, ?_, ?_, ?_, ?_, ?_, ?_, ?_, ?_, ?_, ?_⟩
          · rw [map_item_set _ _ _ _ hg]; exact hI.items_eq
          · show s.poolCount = _
            rw [countTasks_set_same s.tasks i t (Phase.sendErr e) _ hg
              (by simp [hph, holdsSlot])]
            exact hI.pool_eq
          · exact hI.pool_le
          · intro t2 ht2 e2 hph2
            rcases List.mem_or_eq_of_mem_set ht2 with h2 | h2
            · exact hI.sendErr_outcome t2 h2 e2 hph2
            · subst h2
              simp at hph2
              rw [hph2] at houtc
              exact houtc
          · exact hI.errBuf_mem
          · exact hI.result_mem
          · intro hfc
            exact absurd (hI.closed_finished hfc t htmem) (by simp [hph])
          · exact hI.result_closed
          · intro hdf
            show countTasks _ _ = recvInd s + bufInd s
            rw [countTasks_set_same s.tasks i t (Phase.sendErr e) _ hg
              (by simp [hph, pastSend])]
            exact hI.sent_eq hdf
          · intro hd; rw [hd] at hnotdry; cases hnotdry
          · intro hd; rw [hd] at hnotdry; cases hnotdry
          · intro hd; rw [hd] at hnotdry; cases hnotdry
          · intro hd; rw [hd] at hnotdry; cases hnotdry
          · intro f
            show doneCount s.log f = _
            rw [countTasks_set_same s.tasks i t (Phase.sendErr e) _ hg (by simp [hph])]
            exact hI.done_count f
        case _ houtc =>
          injection h with h
          subst h
          refine ⟨?_, ?_, ?_, ?_, ?_, ?_, ?_, ?_, ?_, ?_, ?_, ?_, ?_, ?_⟩
          · rw [map_item_set _ _ _ _ hg]; exact hI.items_eq
          · show s.poolCount = _
            rw [countTasks_set_same s.tasks i t Phase.writingDone _ hg
              (by simp [hph, holdsSlot])]
            exact hI.pool_eq
          · exact hI.pool_le
          · intro t2 ht2 e2 hph2
            rcases List.mem_or_eq_of_mem_set ht2 with h2 | h2
            · exact hI.sendErr_outcome t2 h2 e2 hph2
            · subst h2; simp at hph2
          · exact hI.errBuf_mem
          · exact hI.result_mem
          · intro hfc
            exact absurd (hI.closed_finished hfc t htmem) (by simp [hph])
          · exact hI.result_closed
          · intro hdf
            show countTasks _ _ = recvInd s + bufInd s
            rw [countTasks_set_same s.tasks i t Phase.writingDone _ hg
              (by simp [hph, pastSend, houtc])]
            exact hI.sent_eq hdf
          · intro hd; rw [hd] at hnotdry; cases hnotdry
          · intro hd; rw [hd] at hnotdry; cases hnotdry
          · intro hd; rw [hd] at hnotdry; cases hnotdry
          · intro hd; rw [hd] at hnotdry; cases hnotdry
          · intro f
            show doneCount s.log f = _
            rw [countTasks_set_same s.tasks i t Phase.writingDone _ hg (by simp [hph])]
            exact hI.done_count f
      all_goals exact absurd h (by simp)
    case _ hg => simp at h
  | send i =>
    simp only [stepAct] at h
    split at h
    case _ t hg =>
      have htmem : t ∈ s.tasks := List.get?_mem hg
      split at h
      case _ e hph hbuf =>
        injection h with h
        subst h
        have houtc : t.item.outcome = some e := hI.sendErr_outcome t htmem e hph
        have hnotdry : ctx.dryRun = false := by
          cases hcd : ctx.dryRun
          · rfl
          · exact absurd hph ((hI.dry_phase hcd t htmem).2 e)
        refine ⟨?_, ?_, ?_, ?_, ?_, ?_, ?_, ?_, ?_, ?_, ?_, ?_, ?_, ?_⟩
        · rw [map_item_set _ _ _ _ hg]; exact hI.items_eq
        · show s.poolCount = _
          rw [countTasks_set_same s.tasks i t Phase.writingDone _ hg
            (by simp [hph, holdsSlot])]
          exact hI.pool_eq
        · exact hI.pool_le
        · intro t2 ht2 e2 hph2
          rcases List.mem_or_eq_of_mem_set ht2 with h2 | h2
          · exact hI.sendErr_outcome t2 h2 e2 hph2
          · subst h2; simp at hph2
        · intro e2 he2
          injection he2 with he2
          subst he2
          rw [← houtc]
          exact mem_outcome_of_task hI.items_eq htmem
        · exact hI.result_mem
        · intro hfc
          exact absurd (hI.closed_finished hfc t htmem) (by simp [hph])
        · exact hI.result_closed
        · intro hdf
          have hs := hI.sent_eq hdf
          unfold sentCount at hs
          have hb : bufInd s = 0 := by simp [bufInd, hbuf]
          show countTasks (s.tasks.set i ⟨t.item, Phase.writingDone⟩)
              (fun t => t.item.outcome.isSome && pastSend t.phase) = recvInd s + 1
          rw [countTasks_set_incr s.tasks i t Phase.writingDone _ hg
            (by simp [hph, pastSend]) (by simp [pastSend, houtc])]
          omega
        · intro hd; rw [hd] at hnotdry; cases hnotdry
        · intro hd; rw [hd] at hnotdry; cases hnotdry
        · intro hd; rw [hd] at hnotdry; cases hnotdry
        · intro hd; rw [hd] at hnotdry; cases hnotdry
        · intro f
          show doneCount s.log f = _
          rw [countTasks_set_same s.tasks i t Phase.writingDone _ hg (by simp [hph])]
          exact hI.done_count f
      all_goals exact absurd h (by simp)
    case _ hg => simp at h
  | writeDone i =>
    simp only [stepAct] at h
    split at h
    case _ t hg =>
      have htmem : t ∈ s.tasks := List.get?_mem hg
      split at h
      case _ hph =>
        injection h with h
        subst h
        refine ⟨?_, ?_, ?_, ?_, ?_, ?_, ?_, ?_, ?_, ?_, ?_, ?_, ?_, ?_⟩
        · rw [map_item_set _ _ _ _ hg]; exact hI.items_eq
        · show s.poolCount - 1
              = countTasks (s.tasks.set i ⟨t.item, Phase.finished⟩) (fun t => holdsSlot t.phase)
          have hdec := countTasks_set_decr s.tasks i t Phase.finished
            (fun t => holdsSlot t.phase) hg (by simp [hph, holdsSlot]) (by simp [holdsSlot])
          have hp := hI.pool_eq
          omega
        · show s.poolCount - 1 ≤ ctx.poolSize
          have := hI.pool_le
          omega
        · intro t2 ht2 e2 hph2
          rcases List.mem_or_eq_of_mem_set ht2 with h2 | h2
          · exact hI.sendErr_outcome t2 h2 e2 hph2
          · subst h2; simp at hph2
        · exact hI.errBuf_mem
        · exact hI.result_mem
        · intro hfc
          exact absurd (hI.closed_finished hfc t htmem) (by simp [hph])
        · exact hI.result_closed
        · intro hdf
          show countTasks _ _ = recvInd s + bufInd s
          rw [countTasks_set_same s.tasks i t Phase.finished _ hg
            (by simp [hph, pastSend])]
          exact hI.sent_eq hdf
        · exact hI.dry_noUpload
        · intro hd t2 ht2
          rcases List.mem_or_eq_of_mem_set ht2 with h2 | h2
          · exact hI.dry_phase hd t2 h2
          · subst h2; exact ⟨rfl, by simp⟩
        · exact hI.dry_errBuf
        · exact hI.dry_result
        · intro f
          show doneCount (LogLine.doneLine t.item.file :: s.log) f = _
          rw [doneCount_cons]
          rcases hef : t.item.file == f with _ | _
          · have hne : t.item.file ≠ f := by
              intro hcontra
              rw [hcontra] at hef
              simp at hef
            rw [countTasks_set_same s.tasks i t Phase.finished _ hg
              (by simp [hph, hef])]
            rw [hI.done_count f]
            simp [hne]
          · have heq : t.item.file = f := by simpa using hef
            rw [countTasks_set_incr s.tasks i t Phase.finished _ hg
              (by simp [hph]) (by simp [hef])]
            rw [hI.done_count f]
            simp [heq]
      all_goals exact absurd h (by simp)
    case _ hg => simp at h
  | closeFinished =>
    simp only [stepAct] at h
    split at h
    case _ => exact absurd h (by simp)
    case _ hfc =>
      split at h
      case _ hall =>
        injection h with h
        subst h
        refine ⟨hI.items_eq, hI.pool_eq, hI.pool_le, hI.sendErr_outcome, hI.errBuf_mem,
          hI.result_mem, ?_, ?_, hI.sent_eq, hI.dry_noUpload, hI.dry_phase,
          hI.dry_errBuf, hI.dry_result, hI.done_count⟩
        · intro _ t ht
          have := List.all_eq_true.mp hall t ht
          simpa using this
        · intro _; rfl
      case _ => exact absurd h (by simp)
  | selectFinished =>
    simp only [stepAct] at h
    split at h
    case _ hres =>
      split at h
      case _ hfc =>
        injection h with h
        subst h
        refine ⟨hI.items_eq, hI.pool_eq, hI.pool_le, hI.sendErr_outcome, hI.errBuf_mem,
          ?_, hI.closed_finished, ?_, ?_, hI.dry_noUpload, hI.dry_phase,
          hI.dry_errBuf, ?_, ?_⟩
        · intro e he
          injection he with he
          cases he
        · intro _; exact hfc
        · intro hdf
          have hs := hI.sent_eq hdf
          unfold sentCount at hs
          have hr1 : recvInd s = 0 := by simp [recvInd, hres]
          show countTasks s.tasks (fun t => t.item.outcome.isSome && pastSend t.phase)
              = 0 + bufInd s
          omega
        · intro _ e he
          injection he with he
          cases he
        · intro f
          show doneCount (LogLine.finish ctx.dryRun ctx.delta :: s.log) f = _
          rw [doneCount_cons]
          rw [hI.done_count f]
          simp
      case _ => exact absurd h (by simp)
    case _ => exact absurd h (by simp)
  | selectErr =>
    simp only [stepAct] at h
    split at h
    case _ e hres hbuf =>
      injection h with h
      subst h
      refine ⟨hI.items_eq, hI.pool_eq, hI.pool_le, hI.sendErr_outcome, ?_, ?_,
        hI.closed_finished, ?_, ?_, hI.dry_noUpload, hI.dry_phase, ?_, ?_, hI.done_count⟩
      · intro e2 he2
        cases he2
      · intro e2 he2
        injection he2 with he2
        injection he2 with he2
        subst he2
        exact hI.errBuf_mem e hbuf
      · intro hr
        injection hr with hr
        cases hr
      · intro hdf
        have hs := hI.sent_eq hdf
        unfold sentCount at hs
        have hr1 : recvInd s = 0 := by simp [recvInd, hres]
        have hb1 : bufInd s = 1 := by simp [bufInd, hbuf]
        show countTasks s.tasks (fun t => t.item.outcome.isSome && pastSend t.phase)
            = 1 + 0
        omega
      · intro hd
        exact absurd hbuf (by simp [hI.dry_errBuf hd])
      · intro hd e2 he2
        exact absurd hbuf (by simp [hI.dry_errBuf hd])
    case _ => exact absurd h (by simp)

theorem inv_exec {ctx : Ctx} {items : List TaskItem} :
    ∀ (acts : List SchedAct) (s s2 : SchedState),
    SchedInv ctx items s → execTrace ctx s acts = some s2 → SchedInv ctx items s2 := by
  intro acts
  induction acts with
  | nil =>
    intro s s2 hI h
    injection h with h
    subst h
    exact hI
  | cons a as ih =>
    intro s s2 hI h
    simp only [execTrace] at h
    split at h
    case _ s3 hstep => exact ih s3 s2 (inv_step hI hstep) h
    case _ => cases h

theorem inv_reachable {ctx : Ctx} {items : List TaskItem} {s : SchedState}
    (h : Reachable ctx items s) : SchedInv ctx items s := by
  rcases h with ⟨acts, hex⟩
  exact inv_exec acts _ s (inv_init ctx items) hex

theorem execTrace_append (ctx : Ctx) (s : SchedState) (l1 l2 : List SchedAct) :
    execTrace ctx s (l1 ++ l2)
      = (execTrace ctx s l1).bind (fun s2 => execTrace ctx s2 l2) := by
  induction l1 generalizing s with
  | nil => simp [execTrace]
  | cons a l1 ih =>
    simp only [List.cons_append, execTrace]
    cases hstep : stepAct ctx s a with
    | some s3 => simp [ih s3]
    | none => simp

theorem uploadingCount_le_poolSize (ctx : Ctx) (items : List TaskItem) (s : SchedState)
    (h : Reachable ctx items s) : uploadingCount s ≤ ctx.poolSize := by
  have hI := inv_reachable h
  have h1 : uploadingCount s ≤ countTasks s.tasks (fun t => holdsSlot t.phase) := by
    unfold uploadingCount
    apply countTasks_le_of_imp
    intro t _ hp
    cases hph : t.phase <;> rw [hph] at hp <;> simp [isUploading] at hp <;> rfl
  calc uploadingCount s ≤ countTasks s.tasks (fun t => holdsSlot t.phase) := h1
    _ = s.poolCount := hI.pool_eq.symm
    _ ≤ ctx.poolSize := hI.pool_le

/-- C9: concurrency bound — in every state of Do that some interleaving of the
goroutines can reach, at most poolSize (config.Parallel) invocations of
uploadFile are simultaneously active: the buffered pool channel admits at most
poolSize concurrent slot holders, and every goroutine inside uploadFile holds
a slot. -/
theorem concurrency_bound (ctx : Ctx) (items : List TaskItem) (s : SchedState)
    (h : Reachable ctx items s) : uploadingCount s ≤ ctx.poolSize :=
  uploadingCount_le_poolSize ctx items s h

def itemsC9 : List TaskItem := [⟨"a", [], none⟩]

def ctxC9 : Ctx := ⟨1, false, false⟩

def stateC9 : SchedState :=
  { tasks := [⟨⟨"a", [], none⟩, Phase.uploading⟩]
    poolCount := 1
    errBuf := none
    finishedClosed := false
    log := [LogLine.banner 1 1]
    result := none
    uploadsStarted := 1 }

theorem concurrency_bound_witness : uploadingCount stateC9 ≤ ctxC9.poolSize :=
  concurrency_bound ctxC9 itemsC9 stateC9 ⟨[SchedAct.acquire 0], by decide⟩

/-- C2 (amended): first-error semantics — in a non-dry run whose batch holds at
least two failing items, whenever Do returns, the value it returns is one of
the injected errors (never nil): the error branch of the select is the only
exit, because with two failures and a one-slot error buffer not every goroutine
can complete, so `finished` never closes. Do may however return while
goroutines are still incomplete, and a goroutine parked on the error channel
never prints its done notice. -/
theorem first_error_reported (ctx : Ctx) (items : List TaskItem) (s : SchedState)
    (r : Option String)
    (hdry : ctx.dryRun = false)
    (hfail : 2 ≤ (items.filter (fun it => it.outcome.isSome)).length)
    (hre : Reachable ctx items s) (hres : s.result = some r) :
    ∃ e, r = some e ∧ some e ∈ items.map (fun it => it.outcome) := by
  have hI := inv_reachable hre
  cases r with
  | some e => exact ⟨e, rfl, hI.result_mem e hres⟩
  | none =>
    exfalso
    have hfc := hI.result_closed hres
    have hall := hI.closed_finished hfc
    have hs := hI.sent_eq hdry
    unfold sentCount at hs
    have h1 : countTasks s.tasks (fun t => t.item.outcome.isSome && pastSend t.phase)
        = countTasks s.tasks (fun t => t.item.outcome.isSome) := by
      apply countTasks_congr
      intro t ht
      rw [hall t ht]
      simp [pastSend]
    have h2 : countTasks s.tasks (fun t => t.item.outcome.isSome)
        = (items.filter (fun it => it.outcome.isSome)).length := by
      unfold countTasks
      rw [← hI.items_eq, List.filter_map, List.length_map]
      have hco : ((fun (it : TaskItem) => it.outcome.isSome)
          ∘ (fun (t : TaskState) => t.item)) = (fun t => t.item.outcome.isSome) := rfl
      rw [hco]
    have hb : bufInd s ≤ 1 := by
      unfold bufInd
      split <;> omega
    have hr : recvInd s = 0 := by simp [recvInd, hres]
    omega

def itemsC2 : List TaskItem := [⟨"a", [], some "E1"⟩, ⟨"b", [], some "E2"⟩]

def ctxC2 : Ctx := ⟨2, false, false⟩

def traceC2 : List SchedAct :=
  [SchedAct.acquire 0, SchedAct.uploadRet 0, SchedAct.send 0, SchedAct.selectErr]

def runC2 : Option SchedState := execTrace ctxC2 (initState itemsC2 ctxC2) traceC2

/-- C2 counterexample: an interleaving in which the first goroutine fails and
the select returns its error while the second goroutine has not even acquired
a slot — the run has returned E1, no task has completed, and neither item has
produced a done notice. -/
theorem first_error_counterexample :
    runC2.map (fun s => s.result) = some (some (some "E1")) ∧
    runC2.map (fun s => countTasks s.tasks (fun t => decide (t.phase = Phase.finished)))
      = some 0 ∧
    runC2.map (fun s => doneCount s.log "a") = some 0 ∧
    runC2.map (fun s => doneCount s.log "b") = some 0 := by
  refine ⟨?_, ?_, ?_, ?_⟩ <;> decide

def stateC2 : SchedState :=
  { tasks := [⟨⟨"a", [], some "E1"⟩, Phase.writingDone⟩, ⟨⟨"b", [], some "E2"⟩, Phase.waitPool⟩]
    poolCount := 1
    errBuf := none
    finishedClosed := false
    log := [LogLine.banner 2 2]
    result := some (some "E1")
    uploadsStarted := 1 }

theorem first_error_reported_witness :
    ∃ e, (some "E1" : Option String) = some e
      ∧ some e ∈ itemsC2.map (fun it => it.outcome) :=
  first_error_reported ctxC2 itemsC2 stateC2 (some "E1") rfl (by decide)
    ⟨traceC2, by decide⟩ rfl

/-- C10: a configuration with an empty bucket name makes Do fail immediately
with "no bucket specified", in every mode (dry-run included) and for every
batch (the empty batch included); the error is produced before the banner is
written and before any goroutine exists — the scheduler state carrying the log
and the tasks is only ever constructed on the ok branch of DoStart. -/
theorem empty_bucket_rejected (config : Config) (items : List TaskItem)
    (dryRun delta : Bool) (h : config.bucket.name = "") :
    DoStart config items dryRun delta = Except.error "no bucket specified" := by
  unfold DoStart
  rw [if_pos h]

theorem empty_bucket_rejected_witness :
    DoStart ⟨⟨"", "ak", "sk"⟩, 4, "data", "", []⟩ [] true true
      = Except.error "no bucket specified" :=
  empty_bucket_rejected ⟨⟨"", "ak", "sk"⟩, 4, "data", "", []⟩ [] true true rfl

/-- C7: a nonpositive Parallel value is replaced by 1 when the configuration
is read (main.go 71-73), so the run Do performs with the accepted
configuration serializes the transfers: its pool has capacity 1 and hence at
no reachable point is more than one uploadFile invocation active; readConfig
never fails on account of Parallel. -/
theorem parallel_defaulted (parsed : MainConfig) (envA envK : String)
    (out : MainConfig)
    (hok : readConfig parsed envA envK = Except.ok out)
    (hle : parsed.s3.parallel ≤ 0) :
    out.s3.parallel = 1 ∧
    ∀ (dryRun delta : Bool) (items : List TaskItem) (s : SchedState),
      Reachable (mkCtx out.s3 dryRun delta) items s → uploadingCount s ≤ 1 := by
  have hpar : out.s3.parallel = 1 := by
    simp only [readConfig] at hok
    rw [if_pos hle] at hok
    by_cases hcred : (if parsed.auth.key = "" then envK else parsed.auth.key) = ""
        ∨ (if parsed.auth.accesskey = "" then envA else parsed.auth.accesskey) = ""
    · rw [if_pos hcred] at hok
      cases hok
    · rw [if_neg hcred] at hok
      injection hok with hok
      subst hok
      rfl
  refine ⟨hpar, ?_⟩
  intro dryRun delta items s hre
  have hb := uploadingCount_le_poolSize (mkCtx out.s3 dryRun delta) items s hre
  have hk : (mkCtx out.s3 dryRun delta).poolSize = 1 := by
    unfold mkCtx
    rw [hpar]
    rfl
  rw [hk] at hb
  exact hb

def parsedC7 : MainConfig := ⟨⟨"A", "K"⟩, ⟨⟨"b", "", ""⟩, -3, "src", "", []⟩, ⟨⟨"d", "", ""⟩, []⟩⟩

def outC7 : MainConfig := ⟨⟨"A", "K"⟩, ⟨⟨"b", "A", "K"⟩, 1, "src", "", []⟩, ⟨⟨"d", "A", "K"⟩, []⟩⟩

theorem parallel_defaulted_witness :
    outC7.s3.parallel = 1
      ∧ uploadingCount (initState [] (mkCtx outC7.s3 false false)) ≤ 1 :=
  ⟨(parallel_defaulted parsedC7 "" "" outC7 (by decide) (by decide)).1,
   (parallel_defaulted parsedC7 "" "" outC7 (by decide) (by decide)).2 false false []
     (initState [] (mkCtx outC7.s3 false false)) ⟨[], rfl⟩⟩

theorem get_append_len {α : Type} (pre : List α) (x : α) (l : List α) :
    (pre ++ x :: l).get? pre.length = some x := by
  induction pre with
  | nil => rfl
  | cons p ps ih => simpa using ih

theorem set_append_len {α : Type} (pre : List α) (x y : α) (l : List α) :
    (pre ++ x :: l).set pre.length y = pre ++ y :: l := by
  induction pre with
  | nil => rfl
  | cons p ps ih => simp [List.set, ih]

/-- The deterministic serial schedule: task start, then start+1, ... each one
acquiring its slot and immediately writing its done line. -/
def serialActs : Nat → Nat → List SchedAct
  | _, 0 => []
  | start, n + 1 =>
      SchedAct.acquire start :: SchedAct.writeDone start :: serialActs (start + 1) n

theorem serial_exec (ctx : Ctx) (hdry : ctx.dryRun = true) (hpool : 1 ≤ ctx.poolSize) :
    ∀ (rest : List TaskItem) (pre : List TaskState) (L : List LogLine),
    execTrace ctx
      { tasks := pre ++ rest.map (fun it => ⟨it, Phase.waitPool⟩)
        poolCount := 0
        errBuf := none
        finishedClosed := false
        log := L
        result := none
        uploadsStarted := 0 }
      (serialActs pre.length rest.length)
    = some
      { tasks := pre ++ rest.map (fun it => ⟨it, Phase.finished⟩)
        poolCount := 0
        errBuf := none
        finishedClosed := false
        log := (rest.map (fun it => LogLine.doneLine it.file)).reverse ++ L
        result := none
        uploadsStarted := 0 } := by
  intro rest
  induction rest with
  | nil =>
    intro pre L
    simp [serialActs, execTrace]
  | cons it rest ih =>
    intro pre L
    have hget1 : (pre ++ (it :: rest).map (fun it => (⟨it, Phase.waitPool⟩ : TaskState))).get? pre.length
        = some ⟨it, Phase.waitPool⟩ := by
      simp only [List.map]
      exact get_append_len pre _ _
    have hset1 : (pre ++ (it :: rest).map (fun it => (⟨it, Phase.waitPool⟩ : TaskState))).set pre.length
        ⟨it, Phase.writingDone⟩
        = pre ++ ⟨it, Phase.writingDone⟩ :: rest.map (fun it => ⟨it, Phase.waitPool⟩) := by
      simp only [List.map]
      exact set_append_len pre _ _ _
    have hget2 : (pre ++ (⟨it, Phase.writingDone⟩ : TaskState) :: rest.map (fun it => ⟨it, Phase.waitPool⟩)).get? pre.length
        = some ⟨it, Phase.writingDone⟩ := get_append_len pre _ _
    have hset2 : (pre ++ (⟨it, Phase.writingDone⟩ : TaskState) :: rest.map (fun it => ⟨it, Phase.waitPool⟩)).set pre.length
        ⟨it, Phase.finished⟩
        = pre ++ ⟨it, Phase.finished⟩ :: rest.map (fun it => ⟨it, Phase.waitPool⟩) :=
      set_append_len pre _ _ _
    show execTrace ctx _ (SchedAct.acquire pre.length :: SchedAct.writeDone pre.length
      :: serialActs (pre.length + 1) rest.length) = _
    simp only [execTrace, stepAct, hget1]
    rw [if_pos (by omega : (0:Nat) < ctx.poolSize)]
    rw [if_pos hdry]
    simp only [hset1, hget2, hset2, Nat.add_sub_cancel]
    have hassoc : pre ++ (⟨it, Phase.finished⟩ : TaskState)
          :: rest.map (fun it => ⟨it, Phase.waitPool⟩)
        = (pre ++ [⟨it, Phase.finished⟩]) ++ rest.map (fun it => ⟨it, Phase.waitPool⟩) := by
      simp
    have hlen : pre.length + 1 = (pre ++ [(⟨it, Phase.finished⟩ : TaskState)]).length := by
      simp
    rw [hassoc, hlen, ih (pre ++ [(⟨it, Phase.finished⟩ : TaskState)]) (LogLine.doneLine it.file :: L)]
    simp [List.append_assoc]

theorem dry_run_completes (ctx : Ctx) (items : List TaskItem)
    (hdry : ctx.dryRun = true) (hpool : 1 ≤ ctx.poolSize) :
    ∃ s, Reachable ctx items s ∧ s.result = some none
      ∧ s.log = LogLine.finish ctx.dryRun ctx.delta
          :: ((items.map (fun it => LogLine.doneLine it.file)).reverse
              ++ [LogLine.banner items.length ctx.poolSize]) := by
  have hser : execTrace ctx (initState items ctx) (serialActs 0 items.length)
      = some
        { tasks := [] ++ items.map (fun it => ⟨it, Phase.finished⟩)
          poolCount := 0
          errBuf := none
          finishedClosed := false
          log := (items.map (fun it => LogLine.doneLine it.file)).reverse
              ++ [LogLine.banner items.length ctx.poolSize]
          result := none
          uploadsStarted := 0 } :=
    serial_exec ctx hdry hpool items [] [LogLine.banner items.length ctx.poolSize]
  have hall : (items.map (fun it => (⟨it, Phase.finished⟩ : TaskState))).all
      (fun t => decide (t.phase = Phase.finished)) = true := by
    rw [List.all_eq_true]
    intro t ht
    rcases List.mem_map.mp ht with ⟨it, _, rfl⟩
    simp
  refine ⟨{ tasks := items.map (fun it => ⟨it, Phase.finished⟩)
            poolCount := 0
            errBuf := none
            finishedClosed := true
            log := LogLine.finish ctx.dryRun ctx.delta
                :: ((items.map (fun it => LogLine.doneLine it.file)).reverse
                    ++ [LogLine.banner items.length ctx.poolSize])
            result := some none
            uploadsStarted := 0 },
    ⟨serialActs 0 items.length ++ [SchedAct.closeFinished, SchedAct.selectFinished], ?_⟩, rfl, rfl⟩
  rw [execTrace_append, hser]
  show execTrace ctx _ [SchedAct.closeFinished, SchedAct.selectFinished] = _
  simp only [execTrace, stepAct, List.nil_append, hall]
  simp

theorem length_filter_eq_one_of_nodup {α β : Type} [DecidableEq β]
    (l : List α) (f : α → β) (hnd : (l.map f).Nodup) (a : α) (ha : a ∈ l) :
    (l.filter (fun x => f x == f a)).length = 1 := by
  induction l with
  | nil => cases ha
  | cons x xs ih =>
    simp only [List.map, List.nodup_cons] at hnd
    rcases hnd with ⟨hx, hxs⟩
    rcases List.mem_cons.mp ha with rfl | ha2
    · have hxnil : xs.filter (fun y => f y == f a) = [] := by
        apply List.filter_eq_nil_iff.mpr
        intro y hy hbeq
        have hfy : f y = f a := by simpa using hbeq
        rw [← hfy] at hx
        exact hx (List.mem_map_of_mem f hy)
      simp [List.filter_cons, hxnil]
    · have hne : (f x == f a) = false := by
        apply beq_eq_false_iff_ne.mpr
        intro hEq
        rw [hEq] at hx
        exact hx (List.mem_map_of_mem f ha2)
      simp only [List.filter_cons, hne]
      simp only [Bool.false_eq_true, if_false]
      exact ih hxs ha2

/-- C3 (amended): dry-run behaviour of Do for a configuration whose bucket
name is non-empty: the run starts (banner state), no interleaving ever enters
uploadFile, no interleaving ever returns an error, a run that returned nil has
printed exactly one done notice per item (for distinct file names), and with
Parallel at least 1 a completing interleaving exists, so the run can finish
with success for every batch. An empty bucket name is rejected even in dry-run
mode (see the counterexample), which is the one correction to the claim. -/
theorem dry_run_behavior (config : Config) (items : List TaskItem) (delta : Bool)
    (hbucket : config.bucket.name ≠ "") :
    DoStart config items true delta
      = Except.ok (initState items (mkCtx config true delta)) ∧
    (∀ s, Reachable (mkCtx config true delta) items s →
      s.uploadsStarted = 0 ∧
      (∀ e, s.result ≠ some (some e)) ∧
      (s.result = some none → (items.map (fun it => it.file)).Nodup →
        ∀ it ∈ items, doneCount s.log it.file = 1)) ∧
    (1 ≤ config.parallel →
      ∃ s, Reachable (mkCtx config true delta) items s ∧ s.result = some none) := by
  refine ⟨?_, ?_, ?_⟩
  · unfold DoStart
    rw [if_neg hbucket]
  · intro s hre
    have hI := inv_reachable hre
    refine ⟨hI.dry_noUpload rfl, hI.dry_result rfl, ?_⟩
    intro hres hnodup it hit
    have hfc := hI.result_closed hres
    have hall := hI.closed_finished hfc
    rw [hI.done_count it.file]
    have hc : countTasks s.tasks
          (fun t => decide (t.phase = Phase.finished) && (t.item.file == it.file))
        = countTasks s.tasks (fun t => t.item.file == it.file) := by
      apply countTasks_congr
      intro t ht
      rw [hall t ht]
      simp
    rw [hc]
    have h2 : countTasks s.tasks (fun t => t.item.file == it.file)
        = (items.filter (fun x => x.file == it.file)).length := by
      unfold countTasks
      rw [← hI.items_eq, List.filter_map, List.length_map]
      have hco : ((fun (x : TaskItem) => x.file == it.file)
          ∘ (fun (t : TaskState) => t.item)) = (fun t => t.item.file == it.file) := rfl
      rw [hco]
    rw [h2]
    exact length_filter_eq_one_of_nodup items (fun x => x.file) hnodup it hit
  · intro hp
    have hpool : 1 ≤ (mkCtx config true delta).poolSize := by
      show 1 ≤ config.parallel.toNat
      omega
    rcases dry_run_completes (mkCtx config true delta) items rfl hpool with ⟨s, hre, hres, _⟩
    exact ⟨s, hre, hres⟩

/-- C3 counterexample: a dry run with an empty bucket name reports an error,
not success — Do checks the bucket name before looking at the mode or the
batch, so "always reports overall success for every configuration" fails. -/
theorem dry_run_counterexample :
    DoStart ⟨⟨"", "ak", "sk"⟩, 1, "data", "", []⟩ [] true false
      = Except.error "no bucket specified" := by decide

def configC3 : Config := ⟨⟨"b", "ak", "sk"⟩, 1, "data", "", []⟩

def itemsC3 : List TaskItem := [⟨"a", [], none⟩]

theorem dry_run_behavior_witness :
    ∃ s, Reachable (mkCtx configC3 true false) itemsC3 s ∧ s.result = some none :=
  (dry_run_behavior configC3 itemsC3 false (by decide)).2.2 (by decide)

/-- C1: the delta transfer decision of hasFileChanged equals the decision
table: no inventory record under the upload key means transfer; an existing
record with the same content hash means skip whatever the timestamps are; with
a different hash the file is transferred exactly when its modification time is
strictly after the record's LastModified, and skipped otherwise. -/
theorem delta_decision_table (modTime : Int) (etag : String) (dm : Delta) (key : String) :
    (deltaLookup dm key = none → hasFileChanged modTime etag dm key = true) ∧
    (∀ p, deltaLookup dm key = some p →
      (etag = p.eTag → hasFileChanged modTime etag dm key = false) ∧
      (etag ≠ p.eTag →
        (hasFileChanged modTime etag dm key = true ↔ p.lastModified < modTime))) := by
  constructor
  · intro h
    unfold hasFileChanged
    rw [h]
  · intro p hp
    constructor
    · intro he
      unfold hasFileChanged
      rw [hp]
      simp [he]
    · intro hne
      unfold hasFileChanged
      rw [hp]
      simp [hne]

theorem delta_decision_table_witness :
    hasFileChanged 5 "h" [] "k" = true ∧
    hasFileChanged 5 "h" [("k", ⟨3, "h"⟩)] "k" = false ∧
    hasFileChanged 5 "h" [("k", ⟨3, "g"⟩)] "k" = true ∧
    hasFileChanged 2 "h" [("k", ⟨3, "g"⟩)] "k" = false := by
  refine ⟨(delta_decision_table 5 "h" [] "k").1 (by decide),
    ((delta_decision_table 5 "h" [("k", ⟨3, "h"⟩)] "k").2 ⟨3, "h"⟩ (by decide)).1 rfl,
    (((delta_decision_table 5 "h" [("k", ⟨3, "g"⟩)] "k").2 ⟨3, "g"⟩ (by decide)).2
      (by decide)).mpr (by decide), ?_⟩
  have h4 := ((delta_decision_table 2 "h" [("k", ⟨3, "g"⟩)] "k").2 ⟨3, "g"⟩ (by decide)).2
    (by decide)
  cases hb : hasFileChanged 2 "h" [("k", ⟨3, "g"⟩)] "k"
  · rfl
  · exfalso
    have hlt := h4.mp hb
    simp at hlt

theorem processContent_wf_ok (pt : String → Option Int) (acc : Delta) (x : XmlElement)
    (h : contentWellFormed pt x = true) :
    ∃ k props, contentKey x = some k
      ∧ processContent pt acc x = Except.ok (deltaInsert acc k props) := by
  rcases hlm : selectElement x.children "LastModified" with _ | lm
  · simp [contentWellFormed, hlm] at h
  rcases het : selectElement x.children "ETag" with _ | et
  · simp [contentWellFormed, hlm, het] at h
  rcases hk : selectElement x.children "Key" with _ | k
  · simp [contentWellFormed, hlm, het, hk] at h
  rcases hpt : pt lm.text with _ | t
  · simp [contentWellFormed, hlm, het, hk, hpt] at h
  exact ⟨k.text, ⟨t, trimQuote et.text⟩, by simp [contentKey, hk],
    by simp [processContent, hlm, het, hk, hpt]⟩

theorem processContent_bad (pt : String → Option Int) (acc : Delta) (x : XmlElement)
    (h : contentWellFormed pt x = false) :
    ∃ msg, processContent pt acc x = Except.error msg := by
  rcases hlm : selectElement x.children "LastModified" with _ | lm
  · exact ⟨"could not parse response from aws, xml is malformed: Contents is missing ETag, Key or LastModified",
      by simp [processContent, hlm]⟩
  rcases het : selectElement x.children "ETag" with _ | et
  · exact ⟨"could not parse response from aws, xml is malformed: Contents is missing ETag, Key or LastModified",
      by simp [processContent, hlm, het]⟩
  rcases hk : selectElement x.children "Key" with _ | k
  · exact ⟨"could not parse response from aws, xml is malformed: Contents is missing ETag, Key or LastModified",
      by simp [processContent, hlm, het, hk]⟩
  rcases hpt : pt lm.text with _ | t
  · exact ⟨"could not parse date in response from aws: " ++ lm.text,
      by simp [processContent, hlm, het, hk, hpt]⟩
  · exfalso
    simp [contentWellFormed, hlm, het, hk, hpt] at h

theorem processContent_ok_shape (pt : String → Option Int) (acc : Delta) (x : XmlElement)
    (m : Delta) (h : processContent pt acc x = Except.ok m) :
    ∃ k props, contentKey x = some k ∧ m = deltaInsert acc k props := by
  rcases hlm : selectElement x.children "LastModified" with _ | lm
  · simp [processContent, hlm] at h
  rcases het : selectElement x.children "ETag" with _ | et
  · simp [processContent, hlm, het] at h
  rcases hk : selectElement x.children "Key" with _ | k
  · simp [processContent, hlm, het, hk] at h
  rcases hpt : pt lm.text with _ | t
  · simp [processContent, hlm, het, hk, hpt] at h
  · simp only [processContent, hlm, het, hk, hpt] at h
    injection h with h
    exact ⟨k.text, ⟨t, trimQuote et.text⟩, by simp [contentKey, hk], h.symm⟩

theorem fold_process_ok (pt : String → Option Int) :
    ∀ (l : List XmlElement) (acc : Delta),
    (∀ f ∈ l, contentWellFormed pt f = true) →
    ∃ m, l.foldlM (processContent pt) acc = Except.ok m := by
  intro l
  induction l with
  | nil => exact fun acc _ => ⟨acc, rfl⟩
  | cons x xs ih =>
    intro acc hwf
    rcases processContent_wf_ok pt acc x (hwf x (List.mem_cons_self x xs)) with ⟨k, props, _, hok⟩
    rcases ih (deltaInsert acc k props) (fun f hf => hwf f (List.mem_cons_of_mem x hf))
      with ⟨m, hm⟩
    refine ⟨m, ?_⟩
    simp only [List.foldlM, hok]
    simpa using hm

theorem fold_process_err (pt : String → Option Int) :
    ∀ (l : List XmlElement) (acc : Delta),
    (∃ f ∈ l, contentWellFormed pt f = false) →
    ∃ msg, l.foldlM (processContent pt) acc = Except.error msg := by
  intro l
  induction l with
  | nil => rintro acc ⟨f, hf, _⟩; cases hf
  | cons x xs ih =>
    rintro acc ⟨f, hf, hbad⟩
    rcases hwx : contentWellFormed pt x with _ | _
    · rcases processContent_bad pt acc x hwx with ⟨msg, herr⟩
      refine ⟨msg, ?_⟩
      simp only [List.foldlM, herr]
      rfl
    · have hfxs : f ∈ xs := by
        rcases List.mem_cons.mp hf with rfl | h2
        · rw [hwx] at hbad; cases hbad
        · exact h2
      rcases processContent_wf_ok pt acc x hwx with ⟨k, props, _, hok⟩
      rcases ih (deltaInsert acc k props) ⟨f, hfxs, hbad⟩ with ⟨msg, hm⟩
      refine ⟨msg, ?_⟩
      simp only [List.foldlM, hok]
      simpa using hm

theorem deltaInsert_length_fresh (acc : Delta) (k : String) (v : DeltaProperties)
    (hfresh : ∀ p ∈ acc, p.1 ≠ k) :
    (deltaInsert acc k v).length = acc.length + 1 := by
  unfold deltaInsert
  rw [List.filter_eq_self.mpr]
  · simp
  · intro p hp
    simpa using hfresh p hp

theorem fold_process_len (pt : String → Option Int) :
    ∀ (l : List XmlElement) (acc : Delta) (m : Delta),
    l.foldlM (processContent pt) acc = Except.ok m →
    (∀ f ∈ l, ∀ k, contentKey f = some k → ∀ p ∈ acc, p.1 ≠ k) →
    (l.map contentKey).Nodup →
    m.length = acc.length + l.length := by
  intro l
  induction l with
  | nil =>
    intro acc m h _ _
    injection h with h
    subst h
    rfl
  | cons x xs ih =>
    intro acc m h hfresh hnd
    rcases hpc : processContent pt acc x with msg | acc2
    · rw [show List.foldlM (processContent pt) acc (x :: xs)
          = Except.error msg from by simp only [List.foldlM, hpc]; rfl] at h
      cases h
    · rcases processContent_ok_shape pt acc x acc2 hpc with ⟨k, props, hkey, hacc2⟩
      simp only [List.map, List.nodup_cons] at hnd
      rcases hnd with ⟨hknotin, hndtail⟩
      have hstep : List.foldlM (processContent pt) acc (x :: xs)
          = List.foldlM (processContent pt) acc2 xs := by
        simp only [List.foldlM, hpc]
        rfl
      rw [hstep] at h
      have hacclen : acc2.length = acc.length + 1 := by
        rw [hacc2]
        exact deltaInsert_length_fresh acc k props (hfresh x (List.mem_cons_self x xs) k hkey)
      have hfresh2 : ∀ f ∈ xs, ∀ k2, contentKey f = some k2 → ∀ p ∈ acc2, p.1 ≠ k2 := by
        intro f hf k2 hk2 p hp
        rw [hacc2] at hp
        unfold deltaInsert at hp
        rcases List.mem_append.mp hp with hp2 | hp2
        · exact hfresh f (List.mem_cons_of_mem x hf) k2 hk2 p (List.mem_of_mem_filter hp2)
        · have hpk : p = (k, props) := by simpa using hp2
          subst hpk
          show k ≠ k2
          intro hkk
          rw [hkk] at hkey
          rw [← hk2] at hkey
          exact hknotin (hkey ▸ List.mem_map_of_mem contentKey hf)
      have := ih acc2 m h hfresh2 hndtail
      rw [this, hacclen]
      simp
      omega

/-- C5 (amended): inventory parsing — a missing ListBucketResult container is
a malformed-inventory error; a listing with NO Contents entry is also rejected
as malformed ("missing Contents"), because etree returns a nil slice for zero
matches and the code treats that nil as a parse failure, so an empty bucket
listing does NOT yield an empty inventory; for at least one entry, the fetch
succeeds exactly when every entry carries Key, ETag and LastModified with a
parsable timestamp (otherwise it fails with a malformed-inventory error and no
partial inventory is ever returned, the result being an error value), and on
success it returns one record per listed entry (for pairwise distinct keys). -/
theorem getDeltaMap_characterized (pt : String → Option Int) (doc : List XmlElement) :
    (selectElement doc "ListBucketResult" = none →
      getDeltaMap pt doc
        = Except.error "could not parse response from aws, xml is malformed: missing ListBucketResult") ∧
    ∀ root, selectElement doc "ListBucketResult" = some root →
      (selectElements root.children "Contents" = [] →
        getDeltaMap pt doc
          = Except.error "could not parse response from aws, xml is malformed: missing Contents") ∧
      (selectElements root.children "Contents" ≠ [] →
        ((∃ m, getDeltaMap pt doc = Except.ok m) ↔
          ∀ f ∈ selectElements root.children "Contents", contentWellFormed pt f = true) ∧
        (∀ m, getDeltaMap pt doc = Except.ok m →
          ((selectElements root.children "Contents").map contentKey).Nodup →
          m.length = (selectElements root.children "Contents").length)) := by
  constructor
  · intro hroot
    simp [getDeltaMap, hroot]
  · intro root hroot
    have hne : ∀ (hn : selectElements root.children "Contents" ≠ []),
        getDeltaMap pt doc
          = (selectElements root.children "Contents").foldlM (processContent pt) ([] : Delta) := by
      intro hn
      simp only [getDeltaMap, hroot]
      rw [if_neg (by simpa [List.isEmpty_iff] using hn)]
    constructor
    · intro hnil
      simp only [getDeltaMap, hroot]
      rw [if_pos (by simp [List.isEmpty_iff, hnil])]
    · intro hn
      rw [hne hn]
      constructor
      · constructor
        · rintro ⟨m, hm⟩
          by_contra hbad
          push_neg at hbad
          rcases hbad with ⟨f, hf, hfbad⟩
          rcases fold_process_err pt (selectElements root.children "Contents") []
            ⟨f, hf, by simpa using hfbad⟩ with ⟨msg, herr⟩
          rw [herr] at hm
          cases hm
        · intro hwf
          exact fold_process_ok pt (selectElements root.children "Contents") [] hwf
      · intro m hm hnd
        have := fold_process_len pt (selectElements root.children "Contents") [] m hm
          (by intro f _ k _ p hp; cases hp) hnd
        simpa using this

/-- C5 counterexample: a well-formed listing response for an empty bucket
(ListBucketResult present, zero Contents entries) makes getDeltaMap fail with
a malformed-inventory error instead of returning the empty inventory. -/
theorem empty_listing_counterexample :
    getDeltaMap (fun _ => some 0) [⟨"ListBucketResult", "", []⟩]
      = Except.error "could not parse response from aws, xml is malformed: missing Contents" := by
  rfl

def ptC5 : String → Option Int := fun s => if s = "t" then some 7 else none

def docC5 : List XmlElement :=
  [⟨"ListBucketResult", "",
    [⟨"Contents", "", [⟨"Key", "k1", []⟩, ⟨"ETag", "\"h1\"", []⟩, ⟨"LastModified", "t", []⟩]⟩,
     ⟨"Contents", "", [⟨"Key", "k2", []⟩, ⟨"ETag", "\"h2\"", []⟩, ⟨"LastModified", "t", []⟩]⟩]⟩]

def rootC5 : XmlElement :=
  ⟨"ListBucketResult", "",
    [⟨"Contents", "", [⟨"Key", "k1", []⟩, ⟨"ETag", "\"h1\"", []⟩, ⟨"LastModified", "t", []⟩]⟩,
     ⟨"Contents", "", [⟨"Key", "k2", []⟩, ⟨"ETag", "\"h2\"", []⟩, ⟨"LastModified", "t", []⟩]⟩]⟩

theorem getDeltaMap_characterized_witness :
    ∃ m, getDeltaMap ptC5 docC5 = Except.ok m :=
  (((getDeltaMap_characterized ptC5 docC5).2 rootC5 rfl).2
    (by simp [rootC5, selectElements])).1.mpr
    (by
      intro f hf
      rw [show selectElements rootC5.children "Contents"
        = [⟨"Contents", "", [⟨"Key", "k1", []⟩, ⟨"ETag", "\"h1\"", []⟩, ⟨"LastModified", "t", []⟩]⟩,
           ⟨"Contents", "", [⟨"Key", "k2", []⟩, ⟨"ETag", "\"h2\"", []⟩, ⟨"LastModified", "t", []⟩]⟩]
        from rfl] at hf
      rcases List.mem_cons.mp hf with rfl | hf2
      · rfl
      rcases List.mem_cons.mp hf2 with rfl | hf3
      · rfl
      · cases hf3)

theorem assignHeaders_acc (cr : String → Option (String → Bool))
    (file : String) :
    ∀ (md : List MetadataRule) (acc : List Header),
    (∀ r ∈ md, (cr r.regex).isSome) →
    md.foldlM
      (fun acc rule =>
        match cr rule.regex with
        | none => Except.error ("could not parse regex: " ++ rule.regex)
        | some re => Except.ok (if re file then acc ++ rule.headers else acc))
      acc
    = Except.ok (acc ++ matchedHeaders cr md file) := by
  intro md
  induction md with
  | nil =>
    intro acc _
    simp only [matchedHeaders, List.filter_nil, List.map_nil, List.flatten_nil, List.append_nil]
    rfl
  | cons r md ih =>
    intro acc hcomp
    rcases Option.isSome_iff_exists.mp (hcomp r (List.mem_cons_self r md)) with ⟨re, hre⟩
    have hrest := ih (if re file then acc ++ r.headers else acc)
      (fun r2 hr2 => hcomp r2 (List.mem_cons_of_mem r hr2))
    simp only [List.foldlM, hre]
    rcases hm : re file with _ | _
    · rw [if_neg (by simp [hm])]
      rw [if_neg (by simp [hm])] at hrest
      rw [show matchedHeaders cr (r :: md) file = matchedHeaders cr md file from by
        simp [matchedHeaders, List.filter_cons, ruleMatches, hre, hm]]
      simpa using hrest
    · rw [if_pos (by simp [hm])]
      rw [if_pos (by simp [hm])] at hrest
      rw [show matchedHeaders cr (r :: md) file = r.headers ++ matchedHeaders cr md file from by
        simp [matchedHeaders, List.filter_cons, ruleMatches, hre, hm]]
      simpa [List.append_assoc] using hrest

theorem assignHeaders_eq (cr : String → Option (String → Bool))
    (md : List MetadataRule) (file : String)
    (hcomp : ∀ r ∈ md, (cr r.regex).isSome) :
    assignHeaders cr md file = Except.ok (matchedHeaders cr md file) := by
  unfold assignHeaders
  simpa using assignHeaders_acc cr file md [] hcomp

theorem files_fold_mem (cr : String → Option (String → Bool)) (md : List MetadataRule) :
    ∀ (sel : List String) (acc files : Files),
    sel.foldlM
      (fun acc file =>
        match assignHeaders cr md file with
        | Except.error e => Except.error e
        | Except.ok hs => Except.ok (acc ++ [(file, hs)]))
      acc = Except.ok files →
    ∀ f hs, (f, hs) ∈ files → (f, hs) ∈ acc ∨ assignHeaders cr md f = Except.ok hs := by
  intro sel
  induction sel with
  | nil =>
    intro acc files h f hs hmem
    injection h with h
    subst h
    exact Or.inl hmem
  | cons x xs ih =>
    intro acc files h f hs hmem
    rcases hax : assignHeaders cr md x with e | hsx
    · simp only [List.foldlM, hax, Bind.bind, Except.bind] at h
      cases h
    · simp only [List.foldlM, hax, Bind.bind, Except.bind] at h
      rcases ih (acc ++ [(x, hsx)]) files h f hs hmem with hin | hok
      · rcases List.mem_append.mp hin with hin2 | hin2
        · exact Or.inl hin2
        · have : (f, hs) = (x, hsx) := by simpa using hin2
          injection this with h1 h2
          subst h1
          subst h2
          exact Or.inr hax
      · exact Or.inr hok

theorem ParseFiles_headers (cr : String → Option (String → Bool)) (clean : String → String)
    (statOk : Bool) (pt : String → Option Int) (doc : List XmlElement)
    (config : Config) (delta : Bool) (entries : List WalkEntry) (files : Files)
    (h : ParseFiles cr clean statOk pt doc config delta entries = Except.ok files) :
    ∀ f hs, (f, hs) ∈ files → assignHeaders cr config.metadata f = Except.ok hs := by
  unfold ParseFiles at h
  split at h
  · cases h
  split at h
  · cases h
  split at h
  case _ => cases h
  case _ re hre =>
    split at h
    case _ e he => cases h
    case _ dm hdm =>
      intro f hs hmem
      rcases files_fold_mem cr config.metadata
        (walkSelect clean re config delta dm entries) [] files h f hs hmem with hin | hok
      · cases hin
      · exact hok

theorem ParseFiles_matchedHeaders (cr : String → Option (String → Bool))
    (clean : String → String) (statOk : Bool) (pt : String → Option Int)
    (doc : List XmlElement) (config : Config) (delta : Bool)
    (entries : List WalkEntry) (files : Files)
    (hcomp : ∀ r ∈ config.metadata, (cr r.regex).isSome)
    (h : ParseFiles cr clean statOk pt doc config delta entries = Except.ok files) :
    ∀ f hs, (f, hs) ∈ files → hs = matchedHeaders cr config.metadata f := by
  intro f hs hmem
  have hh := ParseFiles_headers cr clean statOk pt doc config delta entries files h f hs hmem
  rw [assignHeaders_eq cr config.metadata f hcomp] at hh
  injection hh with hh
  exact hh.symm

/-- C4 (amended): header assignment in ParseFiles evaluates each metadata
rule's regex against the RAW walk path of the file — the key the result map is
indexed by — not against the computed upload key: every entry of a successful
ParseFiles result carries exactly the concatenated headers of the rules whose
regex matches the raw path. getUploadPath is applied only for the delta lookup
and later for the PUT target, never for metadata matching. -/
theorem metadata_matched_on_walk_path (cr : String → Option (String → Bool))
    (clean : String → String) (statOk : Bool) (pt : String → Option Int)
    (doc : List XmlElement) (config : Config) (delta : Bool)
    (entries : List WalkEntry) (files : Files)
    (hcomp : ∀ r ∈ config.metadata, (cr r.regex).isSome)
    (h : ParseFiles cr clean statOk pt doc config delta entries = Except.ok files) :
    ∀ f hs, (f, hs) ∈ files → hs = matchedHeaders cr config.metadata f :=
  ParseFiles_matchedHeaders cr clean statOk pt doc config delta entries files hcomp h

/-- The compile oracle for the C4 scenario: the anchored pattern "^index"
matches exactly the strings whose first five characters are i n d e x (the Go
regexp semantics of that pattern), and the ignore pattern matches nothing of
interest here. -/
def crC4 : String → Option (String → Bool) := fun pat =>
  if pat = "^index" then some (fun s => s.toList.take 5 == "index".toList)
  else if pat = "\\.DS_Store" then some (fun _ => false)
  else none

def configC4 : Config :=
  ⟨⟨"b", "ak", "sk"⟩, 1, "data", "\\.DS_Store",
    [⟨"^index", [[("Content-Type", "text/html")]]⟩]⟩

def entriesC4 : List WalkEntry :=
  [⟨"data", true, 0, ""⟩, ⟨"data/index.html", false, 0, ""⟩]

/-- C4 counterexample: with source "data", one metadata rule "^index" and the
walked file "data/index.html", the rule matches the upload key "index.html"
(as the spec directs) but ParseFiles produces an empty header list for the
file, because the code matches the rule against the raw path
"data/index.html"; matching against the upload key, as the spec describes it
(assignHeadersSpecKey), would attach the Content-Type header. -/
theorem metadata_upload_key_counterexample :
    ParseFiles crC4 (fun s => s) true (fun _ => none) [] configC4 false entriesC4
      = Except.ok [("data/index.html", [])] ∧
    assignHeadersSpecKey crC4 (fun s => s) configC4 "data/index.html"
      = Except.ok [[("Content-Type", "text/html")]] ∧
    getUploadPath (fun s => s) configC4 "data/index.html" = "index.html" := by
  refine ⟨?_, ?_, ?_⟩ <;> decide

theorem metadata_matched_on_walk_path_witness :
    ([] : List Header) = matchedHeaders crC4 configC4.metadata "data/index.html" :=
  metadata_matched_on_walk_path crC4 (fun s => s) true (fun _ => none) [] configC4 false
    entriesC4 [("data/index.html", [])] (by decide) (by decide) "data/index.html" [] (by simp)

theorem matchedHeaders_append (cr : String → Option (String → Bool))
    (l1 l2 : List MetadataRule) (f : String) :
    matchedHeaders cr (l1 ++ l2) f = matchedHeaders cr l1 f ++ matchedHeaders cr l2 f := by
  simp [matchedHeaders, List.filter_append]

theorem matchedHeaders_cons_match (cr : String → Option (String → Bool))
    (r : MetadataRule) (l : List MetadataRule) (f : String)
    (hm : ruleMatches cr r f = true) :
    matchedHeaders cr (r :: l) f = r.headers ++ matchedHeaders cr l f := by
  simp [matchedHeaders, List.filter_cons, hm]

/-- C8: ordered header accumulation — when the configured metadata is
l1, R1, l2, R2, l3 in that order and both R1 and R2 match a file of the batch,
the file's final header list is exactly: the headers of the matching rules of
l1, then R1's headers in their configured sub-order, then those of l2, then
R2's headers, then those of l3 — duplicates across rules are preserved, since
the loop only ever appends. -/
theorem header_accumulation (cr : String → Option (String → Bool))
    (clean : String → String) (statOk : Bool) (pt : String → Option Int)
    (doc : List XmlElement) (config : Config) (delta : Bool)
    (entries : List WalkEntry) (files : Files)
    (l1 l2 l3 : List MetadataRule) (r1 r2 : MetadataRule) (f : String) (hs : List Header)
    (hcomp : ∀ r ∈ config.metadata, (cr r.regex).isSome)
    (hmd : config.metadata = l1 ++ r1 :: (l2 ++ r2 :: l3))
    (h : ParseFiles cr clean statOk pt doc config delta entries = Except.ok files)
    (hmem : (f, hs) ∈ files)
    (hm1 : ruleMatches cr r1 f = true) (hm2 : ruleMatches cr r2 f = true) :
    hs = matchedHeaders cr l1 f ++ r1.headers ++ matchedHeaders cr l2 f
      ++ r2.headers ++ matchedHeaders cr l3 f := by
  have hh := ParseFiles_matchedHeaders cr clean statOk pt doc config delta entries
    files hcomp h f hs hmem
  rw [hmd] at hh
  rw [matchedHeaders_append, matchedHeaders_cons_match cr r1 _ f hm1,
    matchedHeaders_append, matchedHeaders_cons_match cr r2 _ f hm2] at hh
  rw [hh]
  simp [List.append_assoc]

/-- The compile oracle for the C8 scenario: "^d" and "^da" with Go regexp
semantics on the involved paths (first one / two characters). -/
def crC8 : String → Option (String → Bool) := fun pat =>
  if pat = "^d" then some (fun s => s.toList.take 1 == ['d'])
  else if pat = "^da" then some (fun s => s.toList.take 2 == ['d', 'a'])
  else if pat = "\\.DS_Store" then some (fun _ => false)
  else none

def r1C8 : MetadataRule := ⟨"^d", [[("Content-Type", "text/html")]]⟩

def r2C8 : MetadataRule :=
  ⟨"^da", [[("Cache-Control", "public")], [("Content-Type", "text/html")]]⟩

def configC8 : Config := ⟨⟨"b", "ak", "sk"⟩, 1, "data", "\\.DS_Store", [r1C8, r2C8]⟩

def entriesC8 : List WalkEntry :=
  [⟨"data", true, 0, ""⟩, ⟨"data/index.html", false, 0, ""⟩]

theorem header_accumulation_witness :
    ([[("Content-Type", "text/html")], [("Cache-Control", "public")],
      [("Content-Type", "text/html")]] : List Header)
      = matchedHeaders crC8 [] "data/index.html" ++ r1C8.headers
        ++ matchedHeaders crC8 [] "data/index.html" ++ r2C8.headers
        ++ matchedHeaders crC8 [] "data/index.html" :=
  header_accumulation crC8 (fun s => s) true (fun _ => none) [] configC8 false entriesC8
    [("data/index.html",
      [[("Content-Type", "text/html")], [("Cache-Control", "public")],
       [("Content-Type", "text/html")]])]
    [] [] [] r1C8 r2C8 "data/index.html"
    [[("Content-Type", "text/html")], [("Cache-Control", "public")],
     [("Content-Type", "text/html")]]
    (by decide) rfl (by decide) (by simp) (by decide) (by decide)

/-- C6: invalidate.Do on an empty invalidation list returns the error
"no invalidation paths specified" (making main abort with non-zero exit)
instead of sending nothing and succeeding as the README describes; a
non-empty list does build and send exactly one batch invalidation request. -/
theorem empty_invalidation_is_error :
    invalidateDo ⟨⟨"dist", "ak", "sk"⟩, []⟩ false
      = Except.error "no invalidation paths specified" ∧
    invalidateDo ⟨⟨"dist", "ak", "sk"⟩, []⟩ true
      = Except.error "no invalidation paths specified" ∧
    invalidateDo ⟨⟨"dist", "ak", "sk"⟩, ["/", "/archive/*"]⟩ false
      = Except.ok ⟨[InvLogLine.banner 2], 1⟩ := by
  refine ⟨?_, ?_, ?_⟩ <;> rfl
